import Mathlib

/-!
Verification of the multi-tier cache subsystem of the repository
(src/cache: cache.service.ts, memcache.service.ts, redis-cache.service.ts).

The embedding models:
  * JSON-representable values (`Json`) together with the text encoding used
    by the `JSON.stringify` / `JSON.parse` platform builtins that
    `RedisCacheService` delegates to (numbers are modelled as integers;
    floating point is outside the embedding),
  * the in-process L1 cache (the external `LRUCache` of
    `shadow-library/common`, modelled at the interface `CacheService` uses:
    `get` / `set(key, value, ttl?)` / `remove`, with a configured default
    TTL applied when no per-call TTL is given),
  * the L2 store capability `ICacheStore` and the `CacheService`
    orchestrator (cache.service.ts, lines 33-93),
  * the Redis-backed store `RedisCacheService` (lines 371-419 of the
    concatenated cache sources) over an explicit key/value-with-expiry
    state with a logical clock,
  * both variants of the Memcached-backed store `MemcacheService`
    (lines 117-221 and 245-347) over a callback-reply oracle, with
    promise settlement made explicit (`resolved` / `rejected` / `pending`).
-/

/-! ## JSON values

JS values reachable through the cache are modelled by a mutual inductive;
`str` / object keys use `List Char` so that the text encoding can be
reasoned about character by character. -/

mutual

inductive Json where
  | null : Json
  | bool (b : Bool) : Json
  | num (n : Int) : Json
  | str (s : List Char) : Json
  | arr (elems : JsonList) : Json
  | obj (members : JsonObj) : Json
  deriving DecidableEq, Repr

inductive JsonList where
  | nil : JsonList
  | cons (hd : Json) (tl : JsonList) : JsonList
  deriving DecidableEq, Repr

inductive JsonObj where
  | nil : JsonObj
  | cons (key : List Char) (val : Json) (tl : JsonObj) : JsonObj
  deriving DecidableEq, Repr

end

/-! Characters that the JSON text encoding treats specially.  They are
spelled via `Char.ofNat` codes: 34 is the double quote, 92 the backslash,
91/93 the square brackets, 123/125 the curly braces. -/

def quoteC : Char := Char.ofNat 34

def backslashC : Char := Char.ofNat 92

def lbrackC : Char := Char.ofNat 91

def rbrackC : Char := Char.ofNat 93

def lbraceC : Char := Char.ofNat 123

def rbraceC : Char := Char.ofNat 125

def commaC : Char := Char.ofNat 44

def colonC : Char := Char.ofNat 58

def minusC : Char := Char.ofNat 45

/-- Decimal digit `d` (for `d < 10`) as a character. -/
def digitChar (d : Nat) : Char := Char.ofNat (48 + d)

/-- Digit value of a character. -/
def dval (c : Char) : Nat := c.toNat - 48

/-- Decimal digits of `n`, most significant first; fuelled so that the
definition is structural (the fuel is an upper bound for `n`). -/
def natToCharsAux : Nat → Nat → List Char
  | 0, n => [digitChar n]
  | fuel+1, n =>
    if n < 10 then [digitChar n]
    else natToCharsAux fuel (n / 10) ++ [digitChar (n % 10)]

/-- Decimal representation of a natural number, as produced by the JS
number-to-string conversion for nonnegative integers. -/
def natToChars (n : Nat) : List Char := natToCharsAux n n

/-- Decimal representation of an integer (JS `Number.prototype.toString`
restricted to integers). -/
def intToChars (n : Int) : List Char :=
  if n < 0 then minusC :: natToChars n.natAbs else natToChars n.toNat

/-- `JSON.stringify` escaping of one string character: the double quote and
the backslash are escaped with a backslash, every other character is
emitted literally. -/
def escapeChar (c : Char) : List Char :=
  if c = quoteC then [backslashC, quoteC]
  else if c = backslashC then [backslashC, backslashC]
  else [c]

/-- `JSON.stringify` escaping of a whole string body. -/
def escapeStr : List Char → List Char
  | [] => []
  | c :: cs => escapeChar c ++ escapeStr cs

/-- The text of the JSON literal for null. -/
def nullChars : List Char := ['n', 'u', 'l', 'l']

/-- The text of the JSON literal for true. -/
def trueChars : List Char := ['t', 'r', 'u', 'e']

/-- The text of the JSON literal for false. -/
def falseChars : List Char := ['f', 'a', 'l', 's', 'e']

mutual

/-- Text encoding of a value: the model of `JSON.stringify` as used by
`RedisCacheService.set` (redis-cache.service.ts line 391). -/
def strJson : Json → List Char
  | .null => nullChars
  | .bool true => trueChars
  | .bool false => falseChars
  | .num n => intToChars n
  | .str s => quoteC :: (escapeStr s ++ [quoteC])
  | .arr l => lbrackC :: strElemsFull l
  | .obj m => lbraceC :: strMembersFull m

/-- Array elements followed by the closing bracket. -/
def strElemsFull : JsonList → List Char
  | .nil => [rbrackC]
  | .cons v tl => strJson v ++ strElemsRest tl

/-- Either the closing bracket, or a comma followed by more elements. -/
def strElemsRest : JsonList → List Char
  | .nil => [rbrackC]
  | .cons v tl => commaC :: (strJson v ++ strElemsRest tl)

/-- Object members followed by the closing brace. -/
def strMembersFull : JsonObj → List Char
  | .nil => [rbraceC]
  | .cons k v tl =>
    quoteC :: (escapeStr k ++ [quoteC] ++ (colonC :: (strJson v ++ strMembersRest tl)))

/-- Either the closing brace, or a comma followed by more members. -/
def strMembersRest : JsonObj → List Char
  | .nil => [rbraceC]
  | .cons k v tl =>
    commaC :: (quoteC :: (escapeStr k ++ [quoteC] ++ (colonC :: (strJson v ++ strMembersRest tl))))

end

mutual

/-- Structural size of a value, used as parser fuel. -/
def sizeJson : Json → Nat
  | .null => 1
  | .bool _ => 1
  | .num _ => 1
  | .str _ => 1
  | .arr l => sizeList l + 1
  | .obj m => sizeObj m + 1

def sizeList : JsonList → Nat
  | .nil => 1
  | .cons v tl => sizeJson v + sizeList tl

def sizeObj : JsonObj → Nat
  | .nil => 1
  | .cons _ v tl => sizeJson v + sizeObj tl

end

/-! ## JSON parsing

A recursive-descent parser over `List Char`, the model of the `JSON.parse`
platform builtin as used by `RedisCacheService.get` (redis-cache.service.ts
line 387): it accepts exactly the texts produced by the encoding above (no
surrounding whitespace, which `JSON.stringify` never emits) and fails on
everything else, which models `JSON.parse` throwing a syntax error. -/

/-- Maximal run of leading decimal digits, together with the rest. -/
def takeDigits : List Char → List Char × List Char
  | [] => ([], [])
  | c :: cs =>
    if c.isDigit then
      let p := takeDigits cs
      (c :: p.1, p.2)
    else ([], c :: cs)

/-- Value of a digit string, most significant digit first. -/
def digitsToNatAux (acc : Nat) : List Char → Nat
  | [] => acc
  | c :: cs => digitsToNatAux (10 * acc + dval c) cs

def digitsToNat (ds : List Char) : Nat := digitsToNatAux 0 ds

mutual

/-- Parse the body of a string literal, after the opening quote: literal
characters up to the closing quote, with backslash-escaped quote and
backslash. -/
def parseStrBody : List Char → Option (List Char × List Char)
  | [] => none
  | c :: cs =>
    if c = quoteC then some ([], cs)
    else if c = backslashC then parseEscTail cs
    else (parseStrBody cs).map (fun p => (c :: p.1, p.2))

/-- Parse the remainder of a string literal directly after a backslash. -/
def parseEscTail : List Char → Option (List Char × List Char)
  | [] => none
  | e :: cs2 =>
    if e = quoteC ∨ e = backslashC then
      (parseStrBody cs2).map (fun p => (e :: p.1, p.2))
    else none

end

/-- Consume an expected literal character sequence. -/
def expectChars : List Char → List Char → Option (List Char)
  | [], cs => some cs
  | _ :: _, [] => none
  | p :: ps, c :: cs => if c = p then expectChars ps cs else none

mutual

/-- Parse one JSON value from the front of the input. -/
def parseVal : Nat → List Char → Option (Json × List Char)
  | 0, _ => none
  | _+1, [] => none
  | fuel+1, c :: cs =>
    if c = quoteC then (parseStrBody cs).map (fun p => (.str p.1, p.2))
    else if c = lbrackC then
      if cs.head? = some rbrackC then some (.arr .nil, cs.tail)
      else (parseElems fuel cs).map (fun p => (.arr p.1, p.2))
    else if c = lbraceC then
      if cs.head? = some rbraceC then some (.obj .nil, cs.tail)
      else (parseMembers fuel cs).map (fun p => (.obj p.1, p.2))
    else if c = 'n' then (expectChars ['u', 'l', 'l'] cs).map (fun r => (.null, r))
    else if c = 't' then (expectChars ['r', 'u', 'e'] cs).map (fun r => (.bool true, r))
    else if c = 'f' then (expectChars ['a', 'l', 's', 'e'] cs).map (fun r => (.bool false, r))
    else if c = minusC then
      match takeDigits cs with
      | ([], _) => none
      | (d :: ds, r) => some (.num (-(digitsToNat (d :: ds) : Int)), r)
    else if c.isDigit then
      match takeDigits (c :: cs) with
      | (ds, r) => some (.num (digitsToNat ds : Int), r)
    else none

/-- Parse a nonempty comma-separated element list and the closing
bracket. -/
def parseElems : Nat → List Char → Option (JsonList × List Char)
  | 0, _ => none
  | fuel+1, cs =>
    match parseVal fuel cs with
    | none => none
    | some (v, r) =>
      match r with
      | [] => none
      | d :: r2 =>
        if d = rbrackC then some (.cons v .nil, r2)
        else if d = commaC then
          match parseElems fuel r2 with
          | none => none
          | some (vs, r3) => some (.cons v vs, r3)
        else none

/-- Parse a nonempty comma-separated member list and the closing brace. -/
def parseMembers : Nat → List Char → Option (JsonObj × List Char)
  | 0, _ => none
  | _+1, [] => none
  | fuel+1, q :: cs1 =>
    if q = quoteC then
      match parseStrBody cs1 with
      | none => none
      | some (k, r1) =>
        match r1 with
        | [] => none
        | col :: r2 =>
          if col = colonC then
            match parseVal fuel r2 with
            | none => none
            | some (v, r3) =>
              match r3 with
              | [] => none
              | d :: r4 =>
                if d = rbraceC then some (.cons k v .nil, r4)
                else if d = commaC then
                  match parseMembers fuel r4 with
                  | none => none
                  | some (ms, r5) => some (.cons k v ms, r5)
                else none
          else none
    else none

end

/-- The model of `JSON.parse text`: parse one value consuming the whole
text (`2 * length + 2` steps of fuel are always enough); `none` models the
builtin throwing a syntax error. -/
def parseJson (s : List Char) : Option Json :=
  match parseVal (2 * s.length + 2) s with
  | some (v, []) => some v
  | _ => none

/-! ## Round-trip of the JSON text encoding

`parseJson (strJson v) = some v` for every value `v`: the property of the
`JSON.parse` / `JSON.stringify` pair that the Redis-backed store relies
on. -/

theorem digitChar_isDigit {d : Nat} (h : d < 10) : (digitChar d).isDigit = true := by
  interval_cases d <;> decide

theorem dval_digitChar {d : Nat} (h : d < 10) : dval (digitChar d) = d := by
  interval_cases d <;> decide

theorem natToCharsAux_stable :
    ∀ f1 f2 n, n ≤ f1 → n ≤ f2 → natToCharsAux f1 n = natToCharsAux f2 n := by
  intro f1
  induction f1 using Nat.strong_induction_on with
  | _ f1 ih =>
    intro f2 n h1 h2
    match f1, f2 with
    | 0, f2 =>
      interval_cases n
      cases f2 <;> simp [natToCharsAux]
    | g1+1, 0 =>
      interval_cases n
      simp [natToCharsAux]
    | g1+1, g2+1 =>
      by_cases hlt : n < 10
      · simp [natToCharsAux, hlt]
      · simp only [natToCharsAux, hlt, if_false]
        have hdiv : n / 10 < n := Nat.div_lt_self (by omega) (by omega)
        rw [ih g1 (by omega) g2 (n / 10) (by omega) (by omega)]

theorem natToChars_eq (n : Nat) :
    natToChars n = if n < 10 then [digitChar n]
                   else natToChars (n / 10) ++ [digitChar (n % 10)] := by
  by_cases hlt : n < 10
  · unfold natToChars
    match n, hlt with
    | 0, _ => simp [natToCharsAux]
    | k+1, h => simp [natToCharsAux, h]
  · have hpos : 0 < n := by omega
    have hdiv : n / 10 < n := Nat.div_lt_self hpos (by omega)
    unfold natToChars
    match n, hpos with
    | k+1, _ =>
      simp only [natToCharsAux, hlt, if_false]
      rw [natToCharsAux_stable k (n := (k+1) / 10) ((k+1)/10) (by omega) (by omega)]

theorem natToChars_digits : ∀ n, ∀ c ∈ natToChars n, c.isDigit = true := by
  intro n
  induction n using Nat.strong_induction_on with
  | _ n ih =>
    intro c hc
    rw [natToChars_eq] at hc
    by_cases hlt : n < 10
    · simp [hlt] at hc
      subst hc
      exact digitChar_isDigit hlt
    · simp only [hlt, if_false, List.mem_append, List.mem_singleton] at hc
      rcases hc with hc | hc
      · exact ih (n / 10) (Nat.div_lt_self (by omega) (by omega)) c hc
      · subst hc
        exact digitChar_isDigit (Nat.mod_lt n (by omega))

theorem natToChars_ne_nil (n : Nat) : natToChars n ≠ [] := by
  rw [natToChars_eq]
  by_cases hlt : n < 10 <;> simp [hlt]

theorem takeDigits_spec :
    ∀ ds rest, (∀ c ∈ ds, c.isDigit = true) →
      (rest = [] ∨ ∃ c cs, rest = c :: cs ∧ c.isDigit = false) →
      takeDigits (ds ++ rest) = (ds, rest) := by
  intro ds
  induction ds with
  | nil =>
    intro rest _ hrest
    rcases hrest with rfl | ⟨c, cs, rfl, hc⟩
    · simp [takeDigits]
    · simp [takeDigits, hc]
  | cons d ds ih =>
    intro rest hds hrest
    have hd : d.isDigit = true := hds d (by simp)
    have h2 := ih rest (fun c hc => hds c (by simp [hc])) hrest
    simp only [List.cons_append, takeDigits, hd, if_true]
    simp [h2]

theorem digitsToNatAux_append_single (xs : List Char) (c : Char) :
    ∀ a, digitsToNatAux a (xs ++ [c]) = 10 * digitsToNatAux a xs + dval c := by
  induction xs with
  | nil =>
    intro a
    rfl
  | cons x xs ih =>
    intro a
    have h1 : digitsToNatAux a ((x :: xs) ++ [c])
        = digitsToNatAux (10 * a + dval x) (xs ++ [c]) := rfl
    have h2 : digitsToNatAux a (x :: xs) = digitsToNatAux (10 * a + dval x) xs := rfl
    rw [h1, h2, ih]

theorem digitsToNatAux_natToChars :
    ∀ n a, digitsToNatAux a (natToChars n) = a * 10 ^ (natToChars n).length + n := by
  intro n
  induction n using Nat.strong_induction_on with
  | _ n ih =>
    intro a
    by_cases hlt : n < 10
    · have hne : natToChars n = [digitChar n] := by
        rw [natToChars_eq]
        simp [hlt]
      rw [hne]
      have hval : digitsToNatAux a [digitChar n] = 10 * a + dval (digitChar n) := rfl
      rw [hval, dval_digitChar hlt]
      simp [pow_one]
      ring
    · rw [natToChars_eq]
      simp only [hlt, if_false]
      rw [digitsToNatAux_append_single, ih (n / 10) (Nat.div_lt_self (by omega) (by omega)) a,
        dval_digitChar (Nat.mod_lt n (by omega))]
      have hlen : (natToChars (n / 10) ++ [digitChar (n % 10)]).length
          = (natToChars (n / 10)).length + 1 := by simp
      rw [hlen, pow_succ]
      have := Nat.div_add_mod n 10
      ring_nf
      omega

theorem digitsToNat_natToChars (n : Nat) : digitsToNat (natToChars n) = n := by
  unfold digitsToNat
  rw [digitsToNatAux_natToChars]
  simp

theorem expectChars_append (p rest : List Char) : expectChars p (p ++ rest) = some rest := by
  induction p with
  | nil => rfl
  | cons c cs ih => simp [expectChars, ih]

theorem parseStrBody_round :
    ∀ s rest, parseStrBody (escapeStr s ++ (quoteC :: rest)) = some (s, rest) := by
  have hbq : ¬ backslashC = quoteC := by decide
  intro s
  induction s with
  | nil =>
    intro rest
    simp [escapeStr, parseStrBody]
  | cons c cs ih =>
    intro rest
    by_cases hq : c = quoteC
    · subst hq
      simp [escapeStr, escapeChar, parseStrBody, parseEscTail, ih, hbq]
    · by_cases hb : c = backslashC
      · subst hb
        simp [escapeStr, escapeChar, parseStrBody, parseEscTail, ih, hbq]
      · simp [escapeStr, escapeChar, hq, hb, parseStrBody, ih]

/-- A decimal digit is none of the characters the parser dispatches on. -/
theorem isDigit_ne (c : Char) (h : c.isDigit = true) :
    c ≠ quoteC ∧ c ≠ lbrackC ∧ c ≠ lbraceC ∧ c ≠ 'n' ∧ c ≠ 't' ∧ c ≠ 'f' ∧
      c ≠ minusC ∧ c ≠ rbrackC ∧ c ≠ rbraceC ∧ c ≠ commaC ∧ c ≠ colonC := by
  refine ⟨?_, ?_, ?_, ?_, ?_, ?_, ?_, ?_, ?_, ?_, ?_⟩ <;>
    (rintro rfl; revert h; decide)

/-- The input does not continue with a digit (so that a preceding numeric
literal cannot absorb it). -/
def nonDigitHead : List Char → Prop
  | [] => True
  | c :: _ => c.isDigit = false

theorem nonDigitHead_cases {rest : List Char} (h : nonDigitHead rest) :
    rest = [] ∨ ∃ c cs, rest = c :: cs ∧ c.isDigit = false := by
  cases rest with
  | nil => exact Or.inl rfl
  | cons c cs => exact Or.inr ⟨c, cs, rfl, h⟩

theorem sizeJson_pos (v : Json) : 1 ≤ sizeJson v := by
  cases v <;> simp [sizeJson]

theorem sizeList_pos (l : JsonList) : 1 ≤ sizeList l := by
  cases l with
  | nil => simp [sizeList]
  | cons v tl => have := sizeJson_pos v; simp [sizeList]; omega

theorem sizeObj_pos (m : JsonObj) : 1 ≤ sizeObj m := by
  cases m with
  | nil => simp [sizeObj]
  | cons k v tl => have := sizeJson_pos v; simp [sizeObj]; omega

theorem intToChars_ne_nil (n : Int) : intToChars n ≠ [] := by
  unfold intToChars
  by_cases h : n < 0
  · simp [h]
  · simp [h, natToChars_ne_nil]

/-- The first character of an encoded value is never a closing bracket
(used to show the parser takes the nonempty-array branch). -/
theorem strJson_head (v : Json) :
    ∃ c cs, strJson v = c :: cs ∧ c ≠ rbrackC := by
  cases v with
  | null => exact ⟨'n', _, rfl, by decide⟩
  | bool b => cases b
              · exact ⟨'f', _, rfl, by decide⟩
              · exact ⟨'t', _, rfl, by decide⟩
  | num n =>
    by_cases h : n < 0
    · refine ⟨minusC, natToChars n.natAbs, ?_, by decide⟩
      simp [strJson, intToChars, h]
    · obtain ⟨c, cs, hc⟩ := List.exists_cons_of_ne_nil (natToChars_ne_nil n.toNat)
      refine ⟨c, cs, ?_, ?_⟩
      · simp [strJson, intToChars, h, hc]
      · have hdig : c.isDigit = true := natToChars_digits n.toNat c (by simp [hc])
        exact (isDigit_ne c hdig).2.2.2.2.2.2.2.1
  | str s => exact ⟨quoteC, _, rfl, by decide⟩
  | arr l => exact ⟨lbrackC, _, rfl, by decide⟩
  | obj m => exact ⟨lbraceC, _, rfl, by decide⟩

theorem nonDigitHead_strElemsRest (tl : JsonList) (rest : List Char) :
    nonDigitHead (strElemsRest tl ++ rest) := by
  cases tl <;> simp [strElemsRest, nonDigitHead] <;> decide

theorem nonDigitHead_strMembersRest (tl : JsonObj) (rest : List Char) :
    nonDigitHead (strMembersRest tl ++ rest) := by
  cases tl <;> simp [strMembersRest, nonDigitHead] <;> decide

theorem parse_round (fuel : Nat) :
    (∀ v rest, sizeJson v ≤ fuel → nonDigitHead rest →
        parseVal fuel (strJson v ++ rest) = some (v, rest)) ∧
    (∀ v tl rest, sizeList (.cons v tl) ≤ fuel →
        parseElems fuel (strElemsFull (.cons v tl) ++ rest) = some (.cons v tl, rest)) ∧
    (∀ k v tl rest, sizeObj (.cons k v tl) ≤ fuel →
        parseMembers fuel (strMembersFull (.cons k v tl) ++ rest)
          = some (.cons k v tl, rest)) := by
  induction fuel with
  | zero =>
    refine ⟨?_, ?_, ?_⟩
    · intro v rest hsz _
      exact absurd hsz (by have := sizeJson_pos v; omega)
    · intro v tl rest hsz
      exact absurd hsz (by have := sizeList_pos (.cons v tl); omega)
    · intro k v tl rest hsz
      exact absurd hsz (by have := sizeObj_pos (.cons k v tl); omega)
  | succ fuel ih =>
    obtain ⟨ihV, ihE, ihM⟩ := ih
    refine ⟨?_, ?_, ?_⟩
    · intro v rest hsz hnd
      cases v with
      | null =>
        simp only [strJson, nullChars, List.cons_append]
        simp [parseVal, quoteC, lbrackC, lbraceC, expectChars]
      | bool b =>
        cases b <;>
          · simp only [strJson, trueChars, falseChars, List.cons_append]
            simp [parseVal, quoteC, lbrackC, lbraceC, expectChars]
      | num n =>
        by_cases hneg : n < 0
        · have htake : takeDigits (natToChars n.natAbs ++ rest)
              = (natToChars n.natAbs, rest) :=
            takeDigits_spec _ _ (natToChars_digits _) (nonDigitHead_cases hnd)
          obtain ⟨d, ds, hds⟩ := List.exists_cons_of_ne_nil (natToChars_ne_nil n.natAbs)
          have hm := (by decide : ¬(minusC = quoteC) ∧ ¬(minusC = lbrackC) ∧
            ¬(minusC = lbraceC) ∧ ¬(minusC = 'n') ∧ ¬(minusC = 't') ∧ ¬(minusC = 'f'))
          rw [hds] at htake
          simp only [strJson, intToChars, hneg, if_true, hds, List.cons_append]
          simp only [parseVal, hm.1, hm.2.1, hm.2.2.1, hm.2.2.2.1, hm.2.2.2.2.1,
            hm.2.2.2.2.2, if_false, if_true, ite_true, ite_false, if_pos rfl]
          simp only [List.cons_append] at htake
          rw [htake]
          have hval : digitsToNat (d :: ds) = n.natAbs := by
            rw [← hds]; exact digitsToNat_natToChars _
          simp [hval, abs_of_neg hneg]
        · obtain ⟨c, cs, hcs⟩ := List.exists_cons_of_ne_nil (natToChars_ne_nil n.toNat)
          have hdig : c.isDigit = true :=
            natToChars_digits n.toNat c (by rw [hcs]; exact List.mem_cons_self c cs)
          have hne := isDigit_ne c hdig
          have htake : takeDigits (natToChars n.toNat ++ rest)
              = (natToChars n.toNat, rest) :=
            takeDigits_spec _ _ (natToChars_digits _) (nonDigitHead_cases hnd)
          rw [hcs] at htake
          simp only [strJson, intToChars, hneg, if_false, hcs, List.cons_append]
          simp only [parseVal, hne.1, hne.2.1, hne.2.2.1, hne.2.2.2.1, hne.2.2.2.2.1,
            hne.2.2.2.2.2.1, hne.2.2.2.2.2.2.1, hdig, if_false, if_true, ite_true, ite_false]
          simp only [List.cons_append] at htake
          rw [htake]
          have hval : digitsToNat (c :: cs) = n.toNat := by
            rw [← hcs]; exact digitsToNat_natToChars _
          simp [hval]
          omega
      | str s =>
        simp only [strJson, List.cons_append, List.append_assoc, List.singleton_append]
        simp [parseVal, parseStrBody_round]
      | arr l =>
        cases l with
        | nil =>
          have h1 : ¬ lbrackC = quoteC := by decide
          simp only [strJson, strElemsFull, List.cons_append, List.singleton_append]
          simp [parseVal, h1]
        | cons v tl =>
          obtain ⟨c, cs, hc, hcne⟩ := strJson_head v
          have hsz2 : sizeList (.cons v tl) ≤ fuel := by
            simp only [sizeJson] at hsz; omega
          have hE := ihE v tl rest hsz2
          simp only [strElemsFull] at hE
          rw [hc] at hE
          simp only [List.cons_append, List.append_assoc] at hE
          have h1 : ¬ lbrackC = quoteC := by decide
          simp only [strJson, strElemsFull, List.cons_append]
          rw [hc]
          simp only [List.cons_append, List.append_assoc]
          simp only [parseVal, h1, if_false, ite_false, if_pos rfl, ite_true,
            List.head?_cons, List.tail_cons]
          simp only [Option.some.injEq, hcne, if_false, ite_false]
          rw [hE]
          simp
      | obj m =>
        cases m with
        | nil =>
          have h1 : ¬ lbraceC = quoteC := by decide
          have h2 : ¬ lbraceC = lbrackC := by decide
          simp only [strJson, strMembersFull, List.cons_append, List.singleton_append]
          simp [parseVal, h1, h2]
        | cons k v tl =>
          have hsz2 : sizeObj (.cons k v tl) ≤ fuel := by
            simp only [sizeJson] at hsz; omega
          have hM := ihM k v tl rest hsz2
          have h1 : ¬ lbraceC = quoteC := by decide
          have h2 : ¬ lbraceC = lbrackC := by decide
          have h3 : ¬ quoteC = rbraceC := by decide
          simp only [strMembersFull] at hM
          simp only [List.cons_append, List.append_assoc, List.singleton_append] at hM
          simp only [strJson, strMembersFull, List.cons_append, List.append_assoc,
            List.singleton_append]
          simp only [parseVal, h1, h2, if_false, ite_false, if_pos rfl, ite_true,
            List.head?_cons, List.tail_cons]
          simp only [Option.some.injEq, h3, if_false, ite_false]
          rw [hM]
          simp
    · intro v tl rest hsz
      have hszv : sizeJson v ≤ fuel := by
        simp only [sizeList] at hsz; have := sizeList_pos tl; omega
      have hV := ihV v (strElemsRest tl ++ rest) hszv (nonDigitHead_strElemsRest tl rest)
      simp only [strElemsFull, List.append_assoc]
      simp only [parseElems]
      rw [hV]
      cases tl with
      | nil =>
        simp [strElemsRest]
      | cons w tw =>
        have hszw : sizeList (.cons w tw) ≤ fuel := by
          simp only [sizeList] at hsz ⊢; have := sizeJson_pos v; omega
        have hE2 := ihE w tw rest hszw
        have hcm : ¬ commaC = rbrackC := by decide
        simp only [strElemsFull] at hE2
        simp only [List.append_assoc] at hE2
        simp only [strElemsRest]
        simp only [List.cons_append, List.append_assoc]
        simp only [hcm, if_false, ite_false, if_pos rfl, ite_true]
        rw [hE2]
    · intro k v tl rest hsz
      have hszv : sizeJson v ≤ fuel := by
        simp only [sizeObj] at hsz; have := sizeObj_pos tl; omega
      have hV := ihV v (strMembersRest tl ++ rest) hszv (nonDigitHead_strMembersRest tl rest)
      simp only [strMembersFull, List.cons_append, List.append_assoc, List.singleton_append]
      simp only [parseMembers, if_pos rfl, ite_true]
      rw [parseStrBody_round]
      simp only [List.nil_append, List.cons_append, List.append_assoc, if_pos rfl, ite_true]
      rw [hV]
      cases tl with
      | nil =>
        simp [strMembersRest]
      | cons k2 w tw =>
        have hszw : sizeObj (.cons k2 w tw) ≤ fuel := by
          simp only [sizeObj] at hsz ⊢; have := sizeJson_pos v; omega
        have hM2 := ihM k2 w tw rest hszw
        have hcm : ¬ commaC = rbraceC := by decide
        simp only [strMembersFull] at hM2
        simp only [List.cons_append, List.append_assoc, List.singleton_append] at hM2
        simp only [strMembersRest]
        simp only [List.cons_append, List.append_assoc, List.singleton_append]
        simp only [hcm, if_false, ite_false, if_pos rfl, ite_true]
        rw [hM2]

theorem strElemsFull_len_le (tl : JsonList) :
    (strElemsFull tl).length ≤ (strElemsRest tl).length := by
  cases tl <;> simp [strElemsFull, strElemsRest]

theorem strMembersFull_len_le (tl : JsonObj) :
    (strMembersFull tl).length ≤ (strMembersRest tl).length := by
  cases tl <;> simp [strMembersFull, strMembersRest]

theorem sizeJson_le_len (bound : Nat) :
    (∀ v, sizeJson v ≤ bound → sizeJson v ≤ 2 * (strJson v).length) ∧
    (∀ l, sizeList l ≤ bound → sizeList l ≤ 2 * (strElemsFull l).length) ∧
    (∀ m, sizeObj m ≤ bound → sizeObj m ≤ 2 * (strMembersFull m).length) := by
  induction bound with
  | zero =>
    refine ⟨?_, ?_, ?_⟩
    · intro v hsz
      exact absurd hsz (by have := sizeJson_pos v; omega)
    · intro l hsz
      exact absurd hsz (by have := sizeList_pos l; omega)
    · intro m hsz
      exact absurd hsz (by have := sizeObj_pos m; omega)
  | succ bound ih =>
    obtain ⟨ihV, ihL, ihM⟩ := ih
    refine ⟨?_, ?_, ?_⟩
    · intro v hsz
      cases v with
      | null => simp [sizeJson, strJson, nullChars]
      | bool b => cases b <;> simp [sizeJson, strJson, trueChars, falseChars]
      | num n =>
        have hlen : 0 < (intToChars n).length :=
          List.length_pos.mpr (intToChars_ne_nil n)
        simp only [sizeJson, strJson]
        omega
      | str s => simp [sizeJson, strJson]; omega
      | arr l =>
        have hl : sizeList l ≤ bound := by
          simp only [sizeJson] at hsz; omega
        have := ihL l hl
        simp only [sizeJson, strJson, List.length_cons]
        omega
      | obj m =>
        have hm : sizeObj m ≤ bound := by
          simp only [sizeJson] at hsz; omega
        have := ihM m hm
        simp only [sizeJson, strJson, List.length_cons]
        omega
    · intro l hsz
      cases l with
      | nil => simp [sizeList, strElemsFull]
      | cons v tl =>
        simp only [sizeList] at hsz
        have hv := ihV v (by have := sizeList_pos tl; omega)
        have htl := ihL tl (by have := sizeJson_pos v; omega)
        have hrest := strElemsFull_len_le tl
        simp only [sizeList, strElemsFull, List.length_append]
        omega
    · intro m hsz
      cases m with
      | nil => simp [sizeObj, strMembersFull]
      | cons k v tl =>
        simp only [sizeObj] at hsz
        have hv := ihV v (by have := sizeObj_pos tl; omega)
        have htl := ihM tl (by have := sizeJson_pos v; omega)
        have hrest := strMembersFull_len_le tl
        simp only [sizeObj, strMembersFull, List.length_cons, List.length_append]
        omega

/-- The `JSON.parse` / `JSON.stringify` pair round-trips: parsing a
serialized value yields the value back. -/
theorem parseJson_strJson (v : Json) : parseJson (strJson v) = some v := by
  unfold parseJson
  have hb : sizeJson v ≤ 2 * (strJson v).length + 2 := by
    have := (sizeJson_le_len (sizeJson v)).1 v le_rfl
    omega
  have h := (parse_round (2 * (strJson v).length + 2)).1 v [] hb trivial
  rw [List.append_nil] at h
  rw [h]

theorem strJson_ne_nil (v : Json) : strJson v ≠ [] := by
  obtain ⟨c, cs, hc, _⟩ := strJson_head v
  simp [hc]

/-! ## L1: the in-process LRU cache

`CacheService` uses the external `LRUCache` of `shadow-library/common`
through `get` / `set(key, value, ttl?)` / `remove` only.  The model keeps
the configured capacity and default TTL and the resident entries; each
entry records the TTL that was applied to it (the per-call TTL when one is
given, the configured default otherwise).  Capacity- or TTL-based eviction
by the external library is modelled by the explicit `evictKey`. -/

structure L1Entry where
  value : Json
  ttlMs : Option Nat
  deriving DecidableEq, Repr

structure LRUState where
  capacity : Nat
  defaultTtlMs : Option Nat
  entries : List (String × L1Entry)
  deriving DecidableEq, Repr

def LRUState.lruGetEntry (st : LRUState) (key : String) : Option L1Entry :=
  (st.entries.find? (fun p => p.1 == key)).map (fun p => p.2)

/-- `lruCache.get(key)`: `none` models the JS `undefined` (absent). -/
def LRUState.lruGet (st : LRUState) (key : String) : Option Json :=
  (st.lruGetEntry key).map (fun e => e.value)

/-- `lruCache.set(key, value, ttl?)`: inserts or overwrites; the entry gets
the per-call TTL when given, else the configured default TTL. -/
def LRUState.lruSet (st : LRUState) (key : String) (value : Json)
    (ttl : Option Nat) : LRUState :=
  { st with entries :=
      (key, ⟨value, ttl.orElse (fun _ => st.defaultTtlMs)⟩) ::
        st.entries.filter (fun p => p.1 != key) }

/-- `lruCache.remove(key)`. -/
def LRUState.lruRemove (st : LRUState) (key : String) : LRUState :=
  { st with entries := st.entries.filter (fun p => p.1 != key) }

/-- Modelled from the behaviour of the external `LRUCache`: eviction of the
entry at `key` (capacity overflow or TTL expiry) removes it from the
resident set. -/
def LRUState.evictKey (st : LRUState) (key : String) : LRUState :=
  st.lruRemove key

theorem lruGet_lruSet_self (st : LRUState) (key : String) (value : Json)
    (ttl : Option Nat) : (st.lruSet key value ttl).lruGet key = some value := by
  simp [LRUState.lruGet, LRUState.lruGetEntry, LRUState.lruSet, List.find?]

theorem lruGet_evictKey_self (st : LRUState) (key : String) :
    (st.evictKey key).lruGet key = none := by
  simp only [LRUState.evictKey, LRUState.lruRemove, LRUState.lruGet, LRUState.lruGetEntry]
  rw [List.find?_eq_none.mpr]
  · rfl
  · intro p hp
    have := List.of_mem_filter hp
    simpa using this

/-! ## The L2 capability and the TieredCache orchestrator

`CacheService` (cache.service.ts lines 33-93) talks to its selected L2
store only through the `ICacheStore` interface.  The orchestrator model is
parametric in the store operations: `StoreOps σ` gives the pure state
transformers of an L2 store with state type `σ`, a failing operation
returning `Except.error` (the model of a rejected promise).  An L2 `get`
resolving with the JS `null` is modelled as `Json.null` (the TS interface
`Promise<T | null>` cannot distinguish a stored null from a miss).  Every
orchestrator operation also returns the list of L2 calls it issued. -/

structure StoreOps (σ : Type) where
  get : σ → String → Except String Json
  set : σ → String → Json → Option Nat → Except String σ
  del : σ → String → Except String σ

inductive L2Call where
  | get (key : String)
  | set (key : String) (value : Json) (ttlSeconds : Option Nat)
  | del (key : String)
  deriving DecidableEq, Repr

inductive L2Selection where
  | memcached
  | redis
  deriving DecidableEq, Repr

/-- The orchestrator's state: the L1 cache, the L2 backend selected at
construction (`private readonly cacheStore`, assigned only in the
constructor), and the states of the two injected backends. -/
structure CacheServiceState (σm σr : Type) where
  lruCache : LRUState
  cacheStore : L2Selection
  memState : σm
  redisState : σr

/-- The `CacheModuleOptions` consumed by the constructor
(cache.module.ts). -/
structure CacheModuleOptions where
  lruCacheSize : Option Nat
  lruCacheTTLSeconds : Option Nat
  deriving DecidableEq, Repr

/-- A reply of the Memcached client's `incr` / `decr` callback: a number, a
boolean, or any other value (rendered as text). -/
inductive McIncrResult where
  | num (n : Int)
  | boolean (b : Bool)
  | other (repr : String)
  deriving DecidableEq, Repr

/-- The Memcached connection handle of `MemcacheService`: an oracle giving
the callback replies of the external `memcached` client (`ok` with a reply
or `error` models the callback's `err` argument). -/
structure Memcached where
  getReply : String → Except String (Option Json)
  setReply : String → Json → Nat → Option String
  delReply : String → Option String
  incrReply : String → Int → Except String McIncrResult
  decrReply : String → Int → Except String McIncrResult

/-- `MemcacheService` (memcache.service.ts, first variant, lines 117-221):
holds the optional Memcached client (`undefined` when the database module
has Memcached disabled). -/
structure MemcacheService where
  memcached : Option Memcached

/-- memcache.service.ts lines 129-131. -/
def MemcacheService.isEnabled (svc : MemcacheService) : Bool :=
  svc.memcached.isSome

/-- The constructor of `CacheService` (cache.service.ts lines 39-55):
builds the L1 cache from the module options (size default 5000, TTL only
when the configured seconds are truthy, scaled to milliseconds) and picks
the L2 store: the Memcached service when it is enabled, else the Redis
service. -/
def CacheService.construct (memcacheService : MemcacheService)
    (options : CacheModuleOptions) (ms : σm) (rs : σr) :
    CacheServiceState σm σr :=
  { lruCache :=
      { capacity := options.lruCacheSize.getD 5000
        defaultTtlMs :=
          match options.lruCacheTTLSeconds with
          | some n => if n ≠ 0 then some (n * 1000) else none
          | none => none
        entries := [] }
    cacheStore := if memcacheService.isEnabled then .memcached else .redis
    memState := ms
    redisState := rs }

/-- Dispatch of `this.cacheStore.get` to the selected backend. -/
def CacheServiceState.l2get (mOps : StoreOps σm) (rOps : StoreOps σr)
    (st : CacheServiceState σm σr) (key : String) : Except String Json :=
  match st.cacheStore with
  | .memcached => mOps.get st.memState key
  | .redis => rOps.get st.redisState key

/-- Dispatch of `this.cacheStore.set` to the selected backend. -/
def CacheServiceState.l2set (mOps : StoreOps σm) (rOps : StoreOps σr)
    (st : CacheServiceState σm σr) (key : String) (value : Json)
    (ttlSeconds : Option Nat) : Except String (CacheServiceState σm σr) :=
  match st.cacheStore with
  | .memcached => (mOps.set st.memState key value ttlSeconds).map
      (fun s => { st with memState := s })
  | .redis => (rOps.set st.redisState key value ttlSeconds).map
      (fun s => { st with redisState := s })

/-- Dispatch of `this.cacheStore.del` to the selected backend. -/
def CacheServiceState.l2del (mOps : StoreOps σm) (rOps : StoreOps σr)
    (st : CacheServiceState σm σr) (key : String) :
    Except String (CacheServiceState σm σr) :=
  match st.cacheStore with
  | .memcached => (mOps.del st.memState key).map (fun s => { st with memState := s })
  | .redis => (rOps.del st.redisState key).map (fun s => { st with redisState := s })

/-- `CacheService.get` (cache.service.ts lines 58-76): check L1; on a hit
(`value !== undefined`) return it with no L2 call; on a miss ask the
selected L2 store; a non-null L2 value is written into L1 with no per-call
TTL (`this.lruCache.set(key, value)`) and returned; otherwise return null.
A rejected L2 promise propagates (`await`). -/
def CacheService.get (mOps : StoreOps σm) (rOps : StoreOps σr)
    (st : CacheServiceState σm σr) (key : String) :
    Except String Json × CacheServiceState σm σr × List L2Call :=
  match st.lruCache.lruGet key with
  | some value => (.ok value, st, [])
  | none =>
    match st.l2get mOps rOps key with
    | .error e => (.error e, st, [.get key])
    | .ok value =>
      if value ≠ .null then
        (.ok value, { st with lruCache := st.lruCache.lruSet key value none }, [.get key])
      else
        (.ok .null, st, [.get key])

/-- `CacheService.set` (cache.service.ts lines 79-84): write to L1 first
(`this.lruCache.set(key, value)`, no per-call TTL), then write through to
the selected L2 store; an L2 rejection propagates (`await`) after the L1
write already happened. -/
def CacheService.set (mOps : StoreOps σm) (rOps : StoreOps σr)
    (st : CacheServiceState σm σr) (key : String) (value : Json)
    (ttlSeconds : Option Nat) :
    Except String Unit × CacheServiceState σm σr × List L2Call :=
  let st1 := { st with lruCache := st.lruCache.lruSet key value none }
  match st1.l2set mOps rOps key value ttlSeconds with
  | .error e => (.error e, st1, [.set key value ttlSeconds])
  | .ok st2 => (.ok (), st2, [.set key value ttlSeconds])

/-- `CacheService.del` (cache.service.ts lines 87-92): remove from L1, then
from the selected L2 store. -/
def CacheService.del (mOps : StoreOps σm) (rOps : StoreOps σr)
    (st : CacheServiceState σm σr) (key : String) :
    Except String Unit × CacheServiceState σm σr × List L2Call :=
  let st1 := { st with lruCache := st.lruCache.lruRemove key }
  match st1.l2del mOps rOps key with
  | .error e => (.error e, st1, [.del key])
  | .ok st2 => (.ok (), st2, [.del key])

/-! ## RedisCacheService

redis-cache.service.ts (lines 371-419 of the concatenated cache sources).
The Redis server state is a key/value store of text entries with an
optional absolute expiry instant, together with a logical clock; `EX`
expiry is `clock + ttlSeconds`, an expired entry is invisible to `GET`.
`advance` models the passage of time. -/

structure RedisEntry where
  text : List Char
  expiresAt : Option Nat
  deriving DecidableEq, Repr

structure RedisState where
  clock : Nat
  store : List (String × RedisEntry)
  deriving DecidableEq, Repr

/-- The command issued to the Redis client by one `set` / `del` call. -/
inductive RedisCmd where
  | setWithEx (key : String) (text : List Char) (ttlSeconds : Nat)
  | setPlain (key : String) (text : List Char)
  | del (key : String)
  deriving DecidableEq, Repr

/-- `redis.get(key)`: the stored text, unless absent or expired. -/
def RedisState.rawGet (st : RedisState) (key : String) : Option (List Char) :=
  match (st.store.find? (fun p => p.1 == key)).map (fun p => p.2) with
  | none => none
  | some e =>
    match e.expiresAt with
    | none => some e.text
    | some t => if st.clock < t then some e.text else none

def RedisState.insert (st : RedisState) (key : String) (e : RedisEntry) : RedisState :=
  { st with store := (key, e) :: st.store.filter (fun p => p.1 != key) }

def RedisState.remove (st : RedisState) (key : String) : RedisState :=
  { st with store := st.store.filter (fun p => p.1 != key) }

/-- Time passing: the clock advances, no entry is touched. -/
def RedisState.advance (st : RedisState) (d : Nat) : RedisState :=
  { st with clock := st.clock + d }

namespace RedisCacheService

/-- `RedisCacheService.get` (lines 379-388): read the raw text; any falsy
reply (absent key, or the empty string) is a miss returning null; otherwise
the text is decoded with `JSON.parse`, whose failure is a thrown
`SyntaxError`, i.e. a rejected promise (`error`), not a miss. -/
def get (st : RedisState) (key : String) : Except String Json :=
  match st.rawGet key with
  | none => .ok .null
  | some data =>
    if data.isEmpty then .ok .null
    else
      match parseJson data with
      | some value => .ok value
      | none => .error "SyntaxError: JSON.parse failed on stored text"

/-- `RedisCacheService.set` (lines 390-395): encode with `JSON.stringify`;
with a truthy `ttlSeconds` issue `SET key data EX ttl` (entry expires at
`clock + ttl`), otherwise (omitted or `0`) issue a plain `SET` with no
expiry.  Returns the new server state and the command issued. -/
def set (st : RedisState) (key : String) (value : Json)
    (ttlSeconds : Option Nat) : RedisState × RedisCmd :=
  let data := strJson value
  match ttlSeconds with
  | some n =>
    if n ≠ 0 then
      (st.insert key ⟨data, some (st.clock + n)⟩, .setWithEx key data n)
    else
      (st.insert key ⟨data, none⟩, .setPlain key data)
  | none => (st.insert key ⟨data, none⟩, .setPlain key data)

/-- `RedisCacheService.del` (lines 397-400). -/
def del (st : RedisState) (key : String) : RedisState × RedisCmd :=
  (st.remove key, .del key)

end RedisCacheService

/-- `RedisCacheService` as an `ICacheStore` implementation: its `set` and
`del` only fail if the Redis client rejects, which the server-state model
does not do; `get` can reject on a decode failure. -/
def redisStoreOps : StoreOps RedisState :=
  { get := fun st key => RedisCacheService.get st key
    set := fun st key value ttl => .ok (RedisCacheService.set st key value ttl).1
    del := fun st key => .ok (RedisCacheService.del st key).1 }

/-! ## MemcacheService

Both variants of memcache.service.ts operate through the callback API of
the external `memcached` client; the promise each method returns is
modelled by its settlement together with the calls made to the client. -/

inductive Settled (α : Type) where
  | resolved (value : α)
  | rejected (error : String)
  | pending
  deriving DecidableEq, Repr

inductive McCall where
  | get (key : String)
  | set (key : String) (value : Json) (lifetime : Nat)
  | del (key : String)
  | incr (key : String) (amount : Int)
  | decr (key : String) (amount : Int)
  deriving DecidableEq, Repr

/-- `MemcacheService.get` (first variant, lines 134-144): resolves null
without touching the client when disabled; otherwise rejects on a callback
error and resolves `data ?? null` otherwise. -/
def MemcacheService.get (svc : MemcacheService) (key : String) :
    Settled Json × List McCall :=
  match svc.memcached with
  | none => (.resolved .null, [])
  | some mc =>
    match mc.getReply key with
    | .error e => (.rejected e, [.get key])
    | .ok data => (.resolved (data.getD .null), [.get key])

/-- `MemcacheService.set` (first variant, lines 147-156, `ttlSeconds`
defaulting to 0): resolves without touching the client when disabled;
otherwise rejects on a callback error and resolves otherwise. -/
def MemcacheService.set (svc : MemcacheService) (key : String) (value : Json)
    (ttlSeconds : Nat) : Settled Unit × List McCall :=
  match svc.memcached with
  | none => (.resolved (), [])
  | some mc =>
    match mc.setReply key value ttlSeconds with
    | some e => (.rejected e, [.set key value ttlSeconds])
    | none => (.resolved (), [.set key value ttlSeconds])

/-- `MemcacheService.del` (first variant, lines 159-168). -/
def MemcacheService.del (svc : MemcacheService) (key : String) :
    Settled Unit × List McCall :=
  match svc.memcached with
  | none => (.resolved (), [])
  | some mc =>
    match mc.delReply key with
    | some e => (.rejected e, [.del key])
    | none => (.resolved (), [.del key])

/-- `MemcacheService.incr` (first variant, lines 171-194): throws when the
client is not initialized; otherwise a numeric callback result resolves
directly, `false` initializes the key through `this.set(key, amount, 0)`
and resolves `amount` (a failing set rejects), and any other result rejects
with a `NeverError`. -/
def MemcacheService.incr (svc : MemcacheService) (key : String)
    (amount : Int) : Settled Int × List McCall :=
  match svc.memcached with
  | none => (.rejected "Memcached client not initialized", [])
  | some mc =>
    match mc.incrReply key amount with
    | .error e => (.rejected e, [.incr key amount])
    | .ok (.num n) => (.resolved n, [.incr key amount])
    | .ok (.boolean false) =>
      let p := MemcacheService.set svc key (.num amount) 0
      match p.1 with
      | .resolved _ => (.resolved amount, .incr key amount :: p.2)
      | .rejected e => (.rejected e, .incr key amount :: p.2)
      | .pending => (.pending, .incr key amount :: p.2)
    | .ok _ =>
      (.rejected ("NeverError: Unexpected value returned from Memcached increment for key " ++ key),
        [.incr key amount])

/-- `MemcacheService.decr` (first variant, lines 197-220): symmetric to
`incr`, initializing with `this.set(key, -amount, 0)` and resolving
`-amount` on a `false` callback result. -/
def MemcacheService.decr (svc : MemcacheService) (key : String)
    (amount : Int) : Settled Int × List McCall :=
  match svc.memcached with
  | none => (.rejected "Memcached client not initialized", [])
  | some mc =>
    match mc.decrReply key amount with
    | .error e => (.rejected e, [.decr key amount])
    | .ok (.num n) => (.resolved n, [.decr key amount])
    | .ok (.boolean false) =>
      let p := MemcacheService.set svc key (.num (-amount)) 0
      match p.1 with
      | .resolved _ => (.resolved (-amount), .decr key amount :: p.2)
      | .rejected e => (.rejected e, .decr key amount :: p.2)
      | .pending => (.pending, .decr key amount :: p.2)
    | .ok _ =>
      (.rejected ("NeverError: Unexpected value returned from Memcached decrement for key " ++ key),
        [.decr key amount])

/-! The second variant of `MemcacheService` (lines 245-347) differs from
the first only inside `incr` / `decr`: on a callback result that is neither
a number nor `false` it logs and then falls through the callback without
calling `resolve` or `reject`, so the returned promise never settles. -/

/-- `MemcacheService.incr`, second variant (lines 299-321): identical to
the first variant except that an unexpected callback result leaves the
promise pending (the callback returns after logging, with no `reject`). -/
def MemcacheServiceB.incr (svc : MemcacheService) (key : String)
    (amount : Int) : Settled Int × List McCall :=
  match svc.memcached with
  | none => (.rejected "Memcached client not initialized", [])
  | some mc =>
    match mc.incrReply key amount with
    | .error e => (.rejected e, [.incr key amount])
    | .ok (.num n) => (.resolved n, [.incr key amount])
    | .ok (.boolean false) =>
      let p := MemcacheService.set svc key (.num amount) 0
      match p.1 with
      | .resolved _ => (.resolved amount, .incr key amount :: p.2)
      | .rejected e => (.rejected e, .incr key amount :: p.2)
      | .pending => (.pending, .incr key amount :: p.2)
    | .ok _ => (.pending, [.incr key amount])

/-- `MemcacheService.decr`, second variant (lines 324-346): identical to
the first variant except that an unexpected callback result leaves the
promise pending. -/
def MemcacheServiceB.decr (svc : MemcacheService) (key : String)
    (amount : Int) : Settled Int × List McCall :=
  match svc.memcached with
  | none => (.rejected "Memcached client not initialized", [])
  | some mc =>
    match mc.decrReply key amount with
    | .error e => (.rejected e, [.decr key amount])
    | .ok (.num n) => (.resolved n, [.decr key amount])
    | .ok (.boolean false) =>
      let p := MemcacheService.set svc key (.num (-amount)) 0
      match p.1 with
      | .resolved _ => (.resolved (-amount), .decr key amount :: p.2)
      | .rejected e => (.rejected e, .decr key amount :: p.2)
      | .pending => (.pending, .decr key amount :: p.2)
    | .ok _ => (.pending, [.decr key amount])

/-! ## Orchestrator lemmas and concrete fixtures -/

theorem l2set_ok_fields {σm σr : Type} (mOps : StoreOps σm) (rOps : StoreOps σr)
    (st : CacheServiceState σm σr) (key : String) (value : Json) (ttl : Option Nat)
    (st2 : CacheServiceState σm σr)
    (h : st.l2set mOps rOps key value ttl = .ok st2) :
    st2.lruCache = st.lruCache ∧ st2.cacheStore = st.cacheStore := by
  cases hsel : st.cacheStore <;> simp only [CacheServiceState.l2set, hsel] at h
  · cases hm : mOps.set st.memState key value ttl with
    | error e => rw [hm] at h; exact absurd h (by simp [Except.map])
    | ok s =>
      rw [hm] at h
      simp only [Except.map] at h
      injection h with h2
      subst h2
      exact ⟨rfl, rfl⟩
  · cases hm : rOps.set st.redisState key value ttl with
    | error e => rw [hm] at h; exact absurd h (by simp [Except.map])
    | ok s =>
      rw [hm] at h
      simp only [Except.map] at h
      injection h with h2
      subst h2
      exact ⟨rfl, rfl⟩

theorem l2del_ok_fields {σm σr : Type} (mOps : StoreOps σm) (rOps : StoreOps σr)
    (st : CacheServiceState σm σr) (key : String) (st2 : CacheServiceState σm σr)
    (h : st.l2del mOps rOps key = .ok st2) :
    st2.lruCache = st.lruCache ∧ st2.cacheStore = st.cacheStore := by
  cases hsel : st.cacheStore <;> simp only [CacheServiceState.l2del, hsel] at h
  · cases hm : mOps.del st.memState key with
    | error e => rw [hm] at h; exact absurd h (by simp [Except.map])
    | ok s =>
      rw [hm] at h
      simp only [Except.map] at h
      injection h with h2
      subst h2
      exact ⟨rfl, rfl⟩
  · cases hm : rOps.del st.redisState key with
    | error e => rw [hm] at h; exact absurd h (by simp [Except.map])
    | ok s =>
      rw [hm] at h
      simp only [Except.map] at h
      injection h with h2
      subst h2
      exact ⟨rfl, rfl⟩

/-- `CacheService.set` with its let-binding inlined, for rewriting. -/
theorem cacheService_set_eq {σm σr : Type} (mOps : StoreOps σm) (rOps : StoreOps σr)
    (st : CacheServiceState σm σr) (key : String) (value : Json)
    (ttlSeconds : Option Nat) :
    CacheService.set mOps rOps st key value ttlSeconds
      = (match CacheServiceState.l2set mOps rOps
              { st with lruCache := st.lruCache.lruSet key value none }
              key value ttlSeconds with
         | .error e =>
            (.error e, { st with lruCache := st.lruCache.lruSet key value none },
             [.set key value ttlSeconds])
         | .ok st2 => (.ok (), st2, [.set key value ttlSeconds])) := rfl

/-- `CacheService.del` with its let-binding inlined, for rewriting. -/
theorem cacheService_del_eq {σm σr : Type} (mOps : StoreOps σm) (rOps : StoreOps σr)
    (st : CacheServiceState σm σr) (key : String) :
    CacheService.del mOps rOps st key
      = (match CacheServiceState.l2del mOps rOps
              { st with lruCache := st.lruCache.lruRemove key } key with
         | .error e =>
            (.error e, { st with lruCache := st.lruCache.lruRemove key },
             [.del key])
         | .ok st2 => (.ok (), st2, [.del key])) := rfl

/-- A trivial L2 store over a unit state: `get` always misses, `set` and
`del` succeed. -/
def unitOps : StoreOps Unit :=
  { get := fun _ _ => .ok .null
    set := fun s _ _ _ => .ok s
    del := fun s _ => .ok s }

/-- An L2 store over a unit state whose `get` always returns the number
7. -/
def hitOps : StoreOps Unit :=
  { get := fun _ _ => .ok (.num 7)
    set := fun s _ _ _ => .ok s
    del := fun s _ => .ok s }

/-- An L2 store over a unit state whose `set` always rejects. -/
def failSetOps : StoreOps Unit :=
  { get := fun _ _ => .ok .null
    set := fun _ _ _ _ => .error "connection reset"
    del := fun s _ => .ok s }

/-- An empty L1 state with the default configuration. -/
def emptyL1 : LRUState :=
  { capacity := 5000, defaultTtlMs := none, entries := [] }

/-- An orchestrator state over unit backends with the given selection. -/
def baseState (sel : L2Selection) : CacheServiceState Unit Unit :=
  { lruCache := emptyL1, cacheStore := sel, memState := (), redisState := () }

/-! ## Claim theorems -/

/-- C1: `CacheService.get` first checks L1 and, on a hit, returns that
value with no L2 call and no state change; on an L1 miss it queries the
selected L2 store once, and a non-null L2 value is written into L1 with no
per-call TTL — so the stored entry carries L1's configured default TTL —
and returned; a null L2 reply returns null (absent). -/
theorem cacheService_get_tiered_lookup {σm σr : Type}
    (mOps : StoreOps σm) (rOps : StoreOps σr)
    (st : CacheServiceState σm σr) (key : String) :
    (∀ v, st.lruCache.lruGet key = some v →
        CacheService.get mOps rOps st key = (.ok v, st, [])) ∧
    (st.lruCache.lruGet key = none →
      (∀ v, st.l2get mOps rOps key = .ok v → v ≠ .null →
          CacheService.get mOps rOps st key
            = (.ok v, { st with lruCache := st.lruCache.lruSet key v none },
               [.get key]) ∧
          (st.lruCache.lruSet key v none).lruGetEntry key
            = some ⟨v, st.lruCache.defaultTtlMs⟩) ∧
      (st.l2get mOps rOps key = .ok .null →
          CacheService.get mOps rOps st key = (.ok .null, st, [.get key]))) := by
  refine ⟨?_, fun hmiss => ⟨?_, ?_⟩⟩
  · intro v hv
    simp [CacheService.get, hv]
  · intro v hl2 hnn
    refine ⟨by simp [CacheService.get, hmiss, hl2, hnn], ?_⟩
    simp [LRUState.lruSet, LRUState.lruGetEntry, List.find?, Option.orElse]
  · intro hl2
    simp [CacheService.get, hmiss, hl2]

/-- Witness for C1: with an empty L1 and an L2 store returning 7, `get`
misses L1, issues one L2 get, hydrates L1 (entry TTL = the default, here
none) and returns 7. -/
theorem cacheService_get_tiered_lookup_witness :
    CacheService.get unitOps hitOps (baseState .redis) "k"
      = (.ok (.num 7),
         { baseState .redis with
             lruCache := (baseState .redis).lruCache.lruSet "k" (.num 7) none },
         [.get "k"]) ∧
    ((baseState .redis).lruCache.lruSet "k" (.num 7) none).lruGetEntry "k"
      = some ⟨.num 7, (baseState .redis).lruCache.defaultTtlMs⟩ :=
  ((cacheService_get_tiered_lookup unitOps hitOps (baseState .redis) "k").2
    rfl).1 (.num 7) rfl (by decide)

/-- C2: `CacheService.set` writes to L1 first and then issues exactly one
write-through to the selected L2 store; when the L2 write fails the whole
operation fails with the very same error, and the L1 write has already
happened and is not rolled back (L1 holds the new value in the returned
state); when the L2 write succeeds the operation succeeds. -/
theorem cacheService_set_writethrough {σm σr : Type}
    (mOps : StoreOps σm) (rOps : StoreOps σr)
    (st : CacheServiceState σm σr) (key : String) (value : Json)
    (ttlSeconds : Option Nat) :
    (CacheService.set mOps rOps st key value ttlSeconds).2.1.lruCache
        = st.lruCache.lruSet key value none ∧
    (CacheService.set mOps rOps st key value ttlSeconds).2.1.lruCache.lruGet key
        = some value ∧
    (CacheService.set mOps rOps st key value ttlSeconds).2.2
        = [.set key value ttlSeconds] ∧
    (∀ e, CacheServiceState.l2set mOps rOps
          { st with lruCache := st.lruCache.lruSet key value none }
          key value ttlSeconds = .error e →
        (CacheService.set mOps rOps st key value ttlSeconds).1 = .error e) ∧
    (∀ st2, CacheServiceState.l2set mOps rOps
          { st with lruCache := st.lruCache.lruSet key value none }
          key value ttlSeconds = .ok st2 →
        (CacheService.set mOps rOps st key value ttlSeconds).1 = .ok ()) := by
  rw [cacheService_set_eq]
  cases hl : CacheServiceState.l2set mOps rOps
      { st with lruCache := st.lruCache.lruSet key value none }
      key value ttlSeconds with
  | error e =>
    refine ⟨rfl, lruGet_lruSet_self _ _ _ _, rfl, ?_, ?_⟩
    · intro e2 he2
      cases he2
      rfl
    · intro st2 h2
      exact absurd h2 (by simp)
  | ok st2 =>
    obtain ⟨hlru, _⟩ := l2set_ok_fields mOps rOps _ key value ttlSeconds st2 hl
    refine ⟨hlru, ?_, rfl, ?_, ?_⟩
    · rw [hlru]
      exact lruGet_lruSet_self _ _ _ _
    · intro e2 he2
      exact absurd he2 (by simp)
    · intro st3 _
      rfl

/-- Witness for C2: with an L2 store whose `set` rejects, the whole `set`
fails with that error while the returned state's L1 already holds the new
value, and exactly one L2 set was attempted. -/
theorem cacheService_set_writethrough_witness :
    (CacheService.set unitOps failSetOps (baseState .redis) "k" (.num 1) none).1
        = .error "connection reset" ∧
    (CacheService.set unitOps failSetOps (baseState .redis) "k" (.num 1) none).2.1.lruCache.lruGet "k"
        = some (.num 1) ∧
    (CacheService.set unitOps failSetOps (baseState .redis) "k" (.num 1) none).2.2
        = [.set "k" (.num 1) none] := by
  have h := cacheService_set_writethrough unitOps failSetOps (baseState .redis)
    "k" (.num 1) none
  exact ⟨h.2.2.2.1 "connection reset" rfl, h.2.1, h.2.2.1⟩

/-- C6: the constructor selects Memcached exactly when the Memcached
service's underlying connection handle is present (`isEnabled`), else
Redis; and no orchestrator operation (`get`, `set`, `del`) changes the
selected backend of the state it returns. -/
theorem cacheService_l2_selection_invariant {σm σr : Type}
    (m : MemcacheService) (options : CacheModuleOptions) (ms : σm) (rs : σr)
    (mOps : StoreOps σm) (rOps : StoreOps σr)
    (st : CacheServiceState σm σr) (key : String) (value : Json)
    (ttl : Option Nat) :
    (CacheService.construct m options ms rs).cacheStore
        = (if m.memcached.isSome then L2Selection.memcached else L2Selection.redis) ∧
    (m.isEnabled = true ↔ m.memcached.isSome = true) ∧
    (CacheService.get mOps rOps st key).2.1.cacheStore = st.cacheStore ∧
    (CacheService.set mOps rOps st key value ttl).2.1.cacheStore = st.cacheStore ∧
    (CacheService.del mOps rOps st key).2.1.cacheStore = st.cacheStore := by
  refine ⟨rfl, Iff.rfl, ?_, ?_, ?_⟩
  · cases h : st.lruCache.lruGet key with
    | some v => simp [CacheService.get, h]
    | none =>
      cases h2 : st.l2get mOps rOps key with
      | error e => simp [CacheService.get, h, h2]
      | ok v =>
        by_cases hv : v = Json.null
        · simp [CacheService.get, h, h2, hv]
        · simp [CacheService.get, h, h2, hv]
  · rw [cacheService_set_eq]
    cases hl : CacheServiceState.l2set mOps rOps
        { st with lruCache := st.lruCache.lruSet key value none } key value ttl with
    | error e => rfl
    | ok st2 =>
      obtain ⟨_, hsel⟩ := l2set_ok_fields mOps rOps _ key value ttl st2 hl
      exact hsel
  · rw [cacheService_del_eq]
    cases hl : CacheServiceState.l2del mOps rOps
        { st with lruCache := st.lruCache.lruRemove key } key with
    | error e => rfl
    | ok st2 =>
      obtain ⟨_, hsel⟩ := l2del_ok_fields mOps rOps _ key st2 hl
      exact hsel

/-! ## Redis-path lemmas -/

theorem rawGet_set_self (st : RedisState) (key : String) (value : Json)
    (ttl : Option Nat) :
    ((RedisCacheService.set st key value ttl).1).rawGet key
      = some (strJson value) := by
  unfold RedisCacheService.set
  cases ttl with
  | none => simp [RedisState.insert, RedisState.rawGet, List.find?]
  | some n =>
    by_cases hn : n = 0
    · simp [hn, RedisState.insert, RedisState.rawGet, List.find?]
    · have hlt : st.clock < st.clock + n := by omega
      simp [hn, RedisState.insert, RedisState.rawGet, List.find?, hlt]

theorem redisGet_of_rawGet_strJson (st : RedisState) (key : String) (value : Json)
    (h : st.rawGet key = some (strJson value)) :
    RedisCacheService.get st key = .ok value := by
  unfold RedisCacheService.get
  rw [h]
  obtain ⟨c, cs, hc, _⟩ := strJson_head value
  rw [hc]
  simp only [List.isEmpty_cons, Bool.false_eq_true, if_false, ite_false]
  rw [← hc, parseJson_strJson]

theorem rawGet_insert_noexpiry_advance (st : RedisState) (key : String)
    (text : List Char) (d : Nat) :
    ((st.insert key ⟨text, none⟩).advance d).rawGet key = some text := by
  simp [RedisState.insert, RedisState.advance, RedisState.rawGet, List.find?]

/-- `CacheService.set` through the Redis store, in closed form: L1 gets the
value (no per-call TTL), the Redis server state gets the encoded entry, and
the operation succeeds. -/
theorem cacheService_set_redis_state {σm : Type} (mOps : StoreOps σm)
    (st : CacheServiceState σm RedisState) (key : String) (value : Json)
    (ttlSeconds : Option Nat) (hsel : st.cacheStore = .redis) :
    CacheService.set mOps redisStoreOps st key value ttlSeconds
      = (.ok (),
         { st with
             lruCache := st.lruCache.lruSet key value none
             redisState := (RedisCacheService.set st.redisState key value ttlSeconds).1 },
         [.set key value ttlSeconds]) := by
  rw [cacheService_set_eq]
  have h1 : CacheServiceState.l2set mOps redisStoreOps
      { st with lruCache := st.lruCache.lruSet key value none }
      key value ttlSeconds
      = .ok { st with
                lruCache := st.lruCache.lruSet key value none
                redisState := (RedisCacheService.set st.redisState key value ttlSeconds).1 } := by
    simp [CacheServiceState.l2set, hsel, redisStoreOps, Except.map]
  rw [h1]

/-- C4: on the Redis-backed tier, `set(k, v)` followed by `get(k)` returns
a value equal to `v`, both when served from L1 and when, after the L1 entry
is evicted, it is rehydrated from L2 through the
`JSON.parse (JSON.stringify v) = v` round trip of the Redis store. -/
theorem tieredCache_set_get_roundtrip {σm : Type} (mOps : StoreOps σm)
    (st : CacheServiceState σm RedisState) (key : String) (value : Json)
    (ttlSeconds : Option Nat) (hsel : st.cacheStore = .redis) :
    (CacheService.get mOps redisStoreOps
        (CacheService.set mOps redisStoreOps st key value ttlSeconds).2.1 key).1
      = .ok value ∧
    (CacheService.get mOps redisStoreOps
        { (CacheService.set mOps redisStoreOps st key value ttlSeconds).2.1 with
            lruCache :=
              ((CacheService.set mOps redisStoreOps st key value ttlSeconds).2.1).lruCache.evictKey
                key }
        key).1
      = .ok value := by
  rw [cacheService_set_redis_state mOps st key value ttlSeconds hsel]
  constructor
  · have h1 : ({ st with
        lruCache := st.lruCache.lruSet key value none
        redisState := (RedisCacheService.set st.redisState key value ttlSeconds).1
        } : CacheServiceState σm RedisState).lruCache.lruGet key = some value :=
      lruGet_lruSet_self _ _ _ _
    simp [CacheService.get, h1]
  · have h0 : (({ st with
        lruCache := st.lruCache.lruSet key value none
        redisState := (RedisCacheService.set st.redisState key value ttlSeconds).1
        } : CacheServiceState σm RedisState).lruCache.evictKey key).lruGet key = none :=
      lruGet_evictKey_self _ _
    have h2 : RedisCacheService.get
        (RedisCacheService.set st.redisState key value ttlSeconds).1 key = .ok value :=
      redisGet_of_rawGet_strJson _ _ _ (rawGet_set_self st.redisState key value ttlSeconds)
    by_cases hv : value = Json.null
    · subst hv
      simp [CacheService.get, h0, CacheServiceState.l2get, hsel, redisStoreOps, h2]
    · simp [CacheService.get, h0, CacheServiceState.l2get, hsel, redisStoreOps, h2, hv]

/-- A concrete orchestrator state over a unit Memcached backend and an
empty Redis server, with Redis selected. -/
def redisBase : CacheServiceState Unit RedisState :=
  { lruCache := emptyL1, cacheStore := .redis, memState := ()
    redisState := { clock := 0, store := [] } }

/-- Witness for C4: a concrete object value survives set-then-get both from
L1 and after L1 eviction. -/
theorem tieredCache_set_get_roundtrip_witness :
    (CacheService.get unitOps redisStoreOps
        (CacheService.set unitOps redisStoreOps redisBase "k"
          (.obj (.cons ['a'] (.num 1) .nil)) none).2.1 "k").1
      = .ok (.obj (.cons ['a'] (.num 1) .nil)) ∧
    (CacheService.get unitOps redisStoreOps
        { (CacheService.set unitOps redisStoreOps redisBase "k"
            (.obj (.cons ['a'] (.num 1) .nil)) none).2.1 with
            lruCache :=
              ((CacheService.set unitOps redisStoreOps redisBase "k"
                (.obj (.cons ['a'] (.num 1) .nil)) none).2.1).lruCache.evictKey "k" }
        "k").1
      = .ok (.obj (.cons ['a'] (.num 1) .nil)) :=
  tieredCache_set_get_roundtrip unitOps redisBase "k"
    (.obj (.cons ['a'] (.num 1) .nil)) none rfl

/-- C5: a key whose stored text is the encoding of a value decodes back to
that original value; a present key whose stored text does not decode makes
`RedisCacheService.get` reject (with the JSON syntax error), which is not
the absent result (`ok null`) nor any successful result, and the rejection
propagates through `CacheService.get` on an L1 miss instead of being
swallowed as a miss. -/
theorem redisCacheService_get_corruption {σm : Type} (mOps : StoreOps σm)
    (st : CacheServiceState σm RedisState) (key : String) :
    (∀ v, st.redisState.rawGet key = some (strJson v) →
        RedisCacheService.get st.redisState key = .ok v) ∧
    (∀ raw, st.redisState.rawGet key = some raw → raw ≠ [] → parseJson raw = none →
        RedisCacheService.get st.redisState key
            = .error "SyntaxError: JSON.parse failed on stored text" ∧
        (∀ v, RedisCacheService.get st.redisState key ≠ .ok v) ∧
        (st.cacheStore = .redis → st.lruCache.lruGet key = none →
          (CacheService.get mOps redisStoreOps st key).1
            = .error "SyntaxError: JSON.parse failed on stored text")) := by
  refine ⟨fun v hv => redisGet_of_rawGet_strJson _ _ _ hv, ?_⟩
  intro raw hraw hne hbad
  obtain ⟨c, cs, rfl⟩ := List.exists_cons_of_ne_nil hne
  have hget : RedisCacheService.get st.redisState key
      = .error "SyntaxError: JSON.parse failed on stored text" := by
    unfold RedisCacheService.get
    rw [hraw]
    simp only [List.isEmpty_cons, Bool.false_eq_true, if_false, ite_false]
    rw [hbad]
  refine ⟨hget, ?_, ?_⟩
  · intro v hv
    rw [hget] at hv
    exact absurd hv (by simp)
  · intro hsel hmiss
    simp [CacheService.get, hmiss, CacheServiceState.l2get, hsel, redisStoreOps, hget]

/-- A Redis-backed orchestrator state storing undecodable text at "k" and a
valid encoding of 2 at "j". -/
def corruptRedisState : CacheServiceState Unit RedisState :=
  { lruCache := emptyL1, cacheStore := .redis, memState := ()
    redisState :=
      { clock := 0
        store := [("k", ⟨['x'], none⟩), ("j", ⟨strJson (.num 2), none⟩)] } }

/-- Witness for C5: the valid text at "j" decodes back to 2; the stored
text "x" at "k" is truthy but undecodable, and both the store and the
tiered get reject on it. -/
theorem redisCacheService_get_corruption_witness :
    RedisCacheService.get corruptRedisState.redisState "j" = .ok (.num 2) ∧
    (RedisCacheService.get corruptRedisState.redisState "k"
        = .error "SyntaxError: JSON.parse failed on stored text" ∧
      (∀ v, RedisCacheService.get corruptRedisState.redisState "k" ≠ .ok v) ∧
      ((corruptRedisState.cacheStore = .redis →
        corruptRedisState.lruCache.lruGet "k" = none →
        (CacheService.get unitOps redisStoreOps corruptRedisState "k").1
          = .error "SyntaxError: JSON.parse failed on stored text"))) :=
  ⟨(redisCacheService_get_corruption unitOps corruptRedisState "j").1 (.num 2) rfl,
   (redisCacheService_get_corruption unitOps corruptRedisState "k").2 ['x']
      rfl (by decide) rfl⟩

/-- C7: `RedisCacheService.set` issues `SET .. EX ttl` exactly when a
nonzero `ttlSeconds` is given and a plain `SET` when it is omitted or 0;
and a key set with `ttlSeconds = 0` is still read back unchanged after an
arbitrarily long delay. -/
theorem redisCacheService_set_expiry (st : RedisState) (key : String)
    (value : Json) (n : Nat) (hn : n ≠ 0) (d : Nat) :
    (RedisCacheService.set st key value (some n)).2
        = .setWithEx key (strJson value) n ∧
    (RedisCacheService.set st key value none).2
        = .setPlain key (strJson value) ∧
    (RedisCacheService.set st key value (some 0)).2
        = .setPlain key (strJson value) ∧
    RedisCacheService.get
        (((RedisCacheService.set st key value (some 0)).1).advance d) key
      = .ok value ∧
    RedisCacheService.get
        (((RedisCacheService.set st key value none).1).advance d) key
      = .ok value := by
  refine ⟨by simp [RedisCacheService.set, hn], rfl, rfl, ?_, ?_⟩
  · exact redisGet_of_rawGet_strJson _ _ _
      (by simp [RedisCacheService.set, rawGet_insert_noexpiry_advance])
  · exact redisGet_of_rawGet_strJson _ _ _
      (by simp [RedisCacheService.set, rawGet_insert_noexpiry_advance])

/-- Witness for C7: ttl 60 issues an `EX 60` set; ttl 0 issues a plain set
whose value is still readable one million ticks later. -/
theorem redisCacheService_set_expiry_witness :
    (RedisCacheService.set { clock := 0, store := [] } "k" (.num 1) (some 60)).2
        = .setWithEx "k" (strJson (.num 1)) 60 ∧
    (RedisCacheService.set { clock := 0, store := [] } "k" (.num 1) none).2
        = .setPlain "k" (strJson (.num 1)) ∧
    (RedisCacheService.set { clock := 0, store := [] } "k" (.num 1) (some 0)).2
        = .setPlain "k" (strJson (.num 1)) ∧
    RedisCacheService.get
        (((RedisCacheService.set { clock := 0, store := [] } "k" (.num 1) (some 0)).1).advance
          1000000) "k"
      = .ok (.num 1) ∧
    RedisCacheService.get
        (((RedisCacheService.set { clock := 0, store := [] } "k" (.num 1) none).1).advance
          1000000) "k"
      = .ok (.num 1) :=
  redisCacheService_set_expiry { clock := 0, store := [] } "k" (.num 1) 60
    (by decide) 1000000

/-- C10: any falsy raw Redis reply — the empty string stored at the key
just like an absent key — is reported by `RedisCacheService.get` as a miss
(`ok null`) before decoding is attempted, not as a decode error. -/
theorem redisCacheService_get_falsy_miss (st : RedisState) (key : String) :
    (st.rawGet key = some [] → RedisCacheService.get st key = .ok .null) ∧
    (st.rawGet key = none → RedisCacheService.get st key = .ok .null) := by
  constructor <;> intro h <;> simp [RedisCacheService.get, h]

/-- Witness for C10: a key holding the raw empty string reads back as a
miss. -/
theorem redisCacheService_get_falsy_miss_witness :
    RedisCacheService.get { clock := 0, store := [("k", ⟨[], none⟩)] } "k"
      = .ok .null :=
  (redisCacheService_get_falsy_miss { clock := 0, store := [("k", ⟨[], none⟩)] } "k").1 rfl

/-! ## Memcached-path claims -/

/-- A Memcached oracle for an absent counter key: `incr` / `decr` report
`false` (key not found) and `set` succeeds. -/
def coldCounterMc : Memcached :=
  { getReply := fun _ => .ok none
    setReply := fun _ _ _ => none
    delReply := fun _ => none
    incrReply := fun _ _ => .ok (.boolean false)
    decrReply := fun _ _ => .ok (.boolean false) }

/-- A Memcached oracle whose `incr` / `decr` callback hands back a value
that is neither a number nor `false`. -/
def unexpectedMc : Memcached :=
  { getReply := fun _ => .ok none
    setReply := fun _ _ _ => none
    delReply := fun _ => none
    incrReply := fun _ _ => .ok (.other "NOT_STORED")
    decrReply := fun _ _ => .ok (.other "NOT_STORED") }

/-- C3 (the code bug, at the failing input): on a backend `incr` reply that
is neither a number nor `false`, the first variant of
`MemcacheService.incr` rejects with the NeverError as the claim states,
but the second variant merely logs and settles nothing — the promise stays
pending forever instead of rejecting. -/
theorem memcacheService_incr_unexpected_result :
    MemcacheService.incr ⟨some unexpectedMc⟩ "k" 1
      = (.rejected
          "NeverError: Unexpected value returned from Memcached increment for key k",
         [.incr "k" 1]) ∧
    MemcacheServiceB.incr ⟨some unexpectedMc⟩ "k" 1
      = (.pending, [.incr "k" 1]) ∧
    MemcacheService.incr ⟨some coldCounterMc⟩ "k" 5
      = (.resolved 5, [.incr "k" 5, .set "k" (.num 5) 0]) :=
  ⟨rfl, rfl, rfl⟩

/-- C8: on a cold miss (backend `decr` reply `false`) with a succeeding
initializing `set`, `MemcacheService.decr` initializes the key through
`set(key, -amount, 0)` and resolves `-amount`. -/
theorem memcacheService_decr_cold_miss (mc : Memcached) (key : String)
    (amount : Int)
    (hmiss : mc.decrReply key amount = .ok (.boolean false))
    (hset : mc.setReply key (.num (-amount)) 0 = none) :
    MemcacheService.decr ⟨some mc⟩ key amount
      = (.resolved (-amount), [.decr key amount, .set key (.num (-amount)) 0]) := by
  simp [MemcacheService.decr, hmiss, MemcacheService.set, hset]

/-- Witness for C8: decrementing an absent key by 3 initializes it to -3
via `set(key, -3, 0)` and resolves -3. -/
theorem memcacheService_decr_cold_miss_witness :
    MemcacheService.decr ⟨some coldCounterMc⟩ "hits" 3
      = (.resolved (-3), [.decr "hits" 3, .set "hits" (.num (-3)) 0]) :=
  memcacheService_decr_cold_miss coldCounterMc "hits" 3 rfl rfl

/-- C9: with no Memcached client, `get` resolves null and `set` / `del`
resolve as no-ops touching no backend, while `incr` / `decr` reject with
the client-not-initialized error — for every key, value, lifetime and
amount. -/
theorem memcacheService_disabled_interface (key : String) (value : Json)
    (ttlSeconds : Nat) (amount : Int) :
    MemcacheService.get ⟨none⟩ key = (.resolved .null, []) ∧
    MemcacheService.set ⟨none⟩ key value ttlSeconds = (.resolved (), []) ∧
    MemcacheService.del ⟨none⟩ key = (.resolved (), []) ∧
    MemcacheService.incr ⟨none⟩ key amount
      = (.rejected "Memcached client not initialized", []) ∧
    MemcacheService.decr ⟨none⟩ key amount
      = (.rejected "Memcached client not initialized", []) :=
  ⟨rfl, rfl, rfl, rfl, rfl⟩
